import Mathlib

/-!
Verification development for the llm_mad repository (restaurant-review
multi-armed bandits).  The Python sources are shallowly embedded below:

* `llm_mad/reviews.py` — `ReviewSelector` / `SynchronizedReviewSelector`
  (states `SelState` / `SyncState` and their operations);
* `llm_mad/models/*.py` — the policy family (`RandomChoice`,
  classification-based `EpsilonGreedy`, `FairweatherFriend`);
* `src/models/epsilon.py` — the score-based `EpsilonGreedy` (`ScoreEG`);
* `llm_mad/simulation.py` — `run_simulation` and
  `run_synchronized_experiment`.

Conventions of the embedding:

* pandas `DataFrame` rows become `ReviewRow` values; a frame is a list of
  (integer index, row) pairs, and `loc` is an index lookup;
* Python dicts become association lists with explicit `aget`/`aset`
  operations (Python dict-comprehension key deduplication is `uniques`);
* Python exceptions become the `Err` inductive carried in `Except`;
  operations that raise in Python without having mutated state are embedded
  as pure `Except` computations (every raising path of the embedded
  functions is mutation-free in the source);
* the global `random` module becomes an explicit stream of naturals
  (`Rng`); `random.choice l` uses the next draw `k` as `l.get? (k % l.length)`
  and `random.shuffle` applies the seed-indexed rotation `shuffleWith k`,
  which is always a permutation of its input;
* floats become `Rat` (ratings and quantified scores are numeric data with
  exact arithmetic in all code under consideration).
-/

/-- One row of the review DataFrame: the arm (restaurant) tag, the free-text
"Review" field and the numeric "Rating" field. -/
structure ReviewRow where
  restaurant : String
  review : String
  rating : Rat
deriving DecidableEq

/-- Python exceptions raised by the embedded code. -/
inductive Err where
  | valueError (msg : String)
  | indexError (msg : String)
  | keyError (msg : String)
  | typeError (msg : String)
  | runtimeError (msg : String)
deriving DecidableEq

/-- Explicit stream of random draws standing for Python's global `random`
state: `stream` gives the draw at each position, `pos` is the cursor. -/
structure Rng where
  stream : Nat → Nat
  pos : Nat

/-- Peek the next random draw. -/
def Rng.peek (g : Rng) : Nat := g.stream g.pos

/-- Take the next random draw and advance the cursor. -/
def Rng.next (g : Rng) : Nat × Rng := (g.stream g.pos, ⟨g.stream, g.pos + 1⟩)

/-- Map a raw draw to a rational in `[0, 1)`, standing for `random.random()`. -/
def randFloat (k : Nat) : Rat := (k % 1000 : Nat) / 1000

/-- Association-list lookup (Python `d[k]` / `k in d`). -/
def aget {κ α : Type} [DecidableEq κ] : List (κ × α) → κ → Option α
  | [], _ => none
  | (k, v) :: rest, key => if key = k then some v else aget rest key

/-- Association-list write (Python `d[k] = v`): replaces the first binding of
the key, or appends a fresh binding. -/
def aset {κ α : Type} [DecidableEq κ] : List (κ × α) → κ → α → List (κ × α)
  | [], key, v => [(key, v)]
  | (k, w) :: rest, key, v =>
    if key = k then (key, v) :: rest else (k, w) :: aset rest key v

/-- Association-list in-place modification of an existing binding
(Python `d[k].append(...)` style); missing keys are untouched. -/
def aupd {κ α : Type} [DecidableEq κ] : List (κ × α) → κ → (α → α) → List (κ × α)
  | [], _, _ => []
  | (k, v) :: rest, key, f =>
    if key = k then (k, f v) :: aupd rest key f else (k, v) :: aupd rest key f

/-- Association-list key removal (Python `d.pop(k, None)`). -/
def aremove {κ α : Type} [DecidableEq κ] : List (κ × α) → κ → List (κ × α)
  | [], _ => []
  | (k, v) :: rest, key =>
    if key = k then aremove rest key else (k, v) :: aremove rest key

/-- First-occurrence deduplication, worker (Python dict/frozenset key
semantics for iteration order). -/
def uniquesAux : List String → List String → List String
  | _, [] => []
  | seen, x :: xs =>
    if x ∈ seen then uniquesAux seen xs else x :: uniquesAux (x :: seen) xs

/-- First-occurrence deduplication of a list of names. -/
def uniques (l : List String) : List String := uniquesAux [] l

/-- Seed-indexed rotation used to model `random.shuffle`: always a
permutation of the input list. -/
def shuffleWith (k : Nat) (l : List Nat) : List Nat :=
  l.drop (k % l.length) ++ l.take (k % l.length)

/-- The state of `ReviewSelector` (reviews.py): the (already filtered) data
frame, the configured restaurant set, the per-restaurant index pools and the
per-restaurant shuffled working lists. -/
structure SelState where
  data : List (Nat × ReviewRow)
  restaurants : List String
  reviewIndices : List (String × List Nat)
  shuffled : List (String × List Nat)
deriving DecidableEq

/-- DataFrame `loc`: look a row up by its index. -/
def loc (d : List (Nat × ReviewRow)) (i : Nat) : Option ReviewRow :=
  (d.find? fun kv => kv.1 = i).map fun kv => kv.2

/-- `ReviewSelector._build_indices`: group the frame's row indices by
restaurant name. -/
def buildIndices (d : List (Nat × ReviewRow)) : List (String × List Nat) :=
  (uniques (d.map fun kv => kv.2.restaurant)).map fun name =>
    (name, (d.filter fun kv => kv.2.restaurant = name).map fun kv => kv.1)

/-- Build a selector over an already-indexed frame restricted to the given
restaurant set (`ReviewSelector.__init__`, explicit-restaurants branch). -/
def mkSelWithArms (d : List (Nat × ReviewRow)) (rs : List String) : SelState :=
  let filtered := d.filter fun kv => kv.2.restaurant ∈ rs
  { data := filtered
    restaurants := uniques rs
    reviewIndices := buildIndices filtered
    shuffled := [] }

/-- `ReviewSelector.__init__`: the constructor never validates the filtered
result — it only partitions the data.  `none` means "infer the restaurant
set from the data". -/
def ReviewSelector.init (data : List ReviewRow) (restaurants : Option (List String)) :
    SelState :=
  let indexed := data.enum
  match restaurants with
  | none =>
    { data := indexed
      restaurants := uniques (data.map fun r => r.restaurant)
      reviewIndices := buildIndices indexed
      shuffled := [] }
  | some rs => mkSelWithArms indexed rs

/-- Pop one record from the tail of the working list `l` for `arm`, storing
back the rest (this folds Python's "store the freshly shuffled list, then
`pop()` it" into a single write of `l.dropLast`, which is the same end
state). -/
def popFrom (s : SelState) (arm : String) (l : List Nat) (rng : Rng) :
    Except Err (ReviewRow × SelState × Rng) :=
  match l.getLast? with
  | none => .error (.indexError s!"All reviews for restaurant {arm} have been selected.")
  | some i =>
    match loc s.data i with
    | some r => .ok (r, { s with shuffled := aset s.shuffled arm l.dropLast }, rng)
    | none => .error (.keyError s!"row {i} not found")

/-- `ReviewSelector.get_random_review`: unknown restaurant raises
`ValueError`; a restaurant with no rows raises `IndexError`; the working
list is created (shuffled) on first use and popped from its tail; an empty
working list raises `IndexError`. -/
def getRandomReview (s : SelState) (arm : String) (rng : Rng) :
    Except Err (ReviewRow × SelState × Rng) :=
  if arm ∈ s.restaurants then
    match aget s.reviewIndices arm with
    | none => .error (.indexError s!"No reviews available for restaurant {arm}.")
    | some idxs =>
      match aget s.shuffled arm with
      | some l => popFrom s arm l rng
      | none =>
        let (k, rng₁) := rng.next
        popFrom s arm (shuffleWith k idxs) rng₁
  else .error (.valueError s!"Restaurant {arm} not found.")

/-- `ReviewSelector.reset`: drop the working list of one restaurant. -/
def resetSel (s : SelState) (arm : String) : Except Err SelState :=
  if arm ∈ s.restaurants then .ok { s with shuffled := aremove s.shuffled arm }
  else .error (.valueError s!"Restaurant {arm} not found.")

/-- `ReviewSelector.reset_all`: drop every working list. -/
def resetAllSel (s : SelState) : SelState := { s with shuffled := [] }

/-- The state of `SynchronizedReviewSelector`: the inherited selector plus
the `(timestep, restaurant)` cache and the implicit current timestep. -/
structure SyncState where
  base : SelState
  cache : List ((Nat × String) × ReviewRow)
  currentTimestep : Nat
deriving DecidableEq

/-- `SynchronizedReviewSelector.__init__` as invoked by
`run_synchronized_experiment`: rebuild a selector over the (already
filtered) frame of an existing selector and its restaurant set, with an
empty cache and timestep 0. -/
def SyncState.ofSelector (sel : SelState) : SyncState :=
  { base := mkSelWithArms sel.data sel.restaurants
    cache := []
    currentTimestep := 0 }

/-- `SynchronizedReviewSelector.set_timestep`. -/
def setTimestep (s : SyncState) (t : Nat) : SyncState := { s with currentTimestep := t }

/-- Resolve the optional timestep argument against the implicit current
timestep. -/
def resolveT (s : SyncState) (t : Option Nat) : Nat := t.getD s.currentTimestep

/-- `SynchronizedReviewSelector.get_synchronized_review`: serve from the
cache when the `(timestep, restaurant)` key is present; otherwise draw via
`get_random_review` (with one reset-and-retry on pool exhaustion), cache the
result and return it. -/
def getSyncReview (s : SyncState) (arm : String) (t : Option Nat) (rng : Rng) :
    Except Err (ReviewRow × SyncState × Rng) :=
  let key := (resolveT s t, arm)
  match aget s.cache key with
  | some r => .ok (r, s, rng)
  | none =>
    match getRandomReview s.base arm rng with
    | .ok (r, b₁, rng₁) =>
      .ok (r, { s with base := b₁, cache := aset s.cache key r }, rng₁)
    | .error (.indexError _) =>
      match resetSel s.base arm with
      | .ok b₁ =>
        match getRandomReview b₁ arm rng with
        | .ok (r, b₂, rng₁) =>
          .ok (r, { s with base := b₂, cache := aset s.cache key r }, rng₁)
        | .error e => .error e
      | .error e => .error e
    | .error e => .error e

/-- `SynchronizedReviewSelector.reset_synchronization`: clear the cache and
the timestep counter. -/
def resetSync (s : SyncState) : SyncState := { s with cache := [], currentTimestep := 0 }

/-- `SynchronizedReviewSelector.reset_all`: the overriding reset — it clears
the inherited per-restaurant pools AND the synchronization state. -/
def resetAllSync (s : SyncState) : SyncState :=
  { s with base := resetAllSel s.base, cache := [], currentTimestep := 0 }

/-- The feedback unit passed to a policy's `update` call: raw review text
(`review_text=` keyword) or a quantified score (`score=` keyword). -/
inductive Feedback where
  | text (s : String)
  | score (x : Rat)
deriving DecidableEq

/-- The external classification oracle `classify(text)`, fallible. -/
def Classifier : Type := String → Except Err String

/-- The external quantification oracle `quantify(text)`, fallible. -/
def Quantifier : Type := String → Except Err Rat

/-- State of `RandomChoice` (models/random_choice.py). -/
structure RCState where
  restaurants : List String
deriving DecidableEq

/-- `RandomChoice.__init__` via `BanditAlgorithm.__init__`: an empty arm
list raises `ValueError`. -/
def RC.create (rs : List String) : Except Err RCState :=
  if rs = [] then .error (.valueError "Restaurant list cannot be empty.")
  else .ok { restaurants := rs }

/-- `RandomChoice.select_restaurant`: a uniform draw over the arm list. -/
def RC.select (s : RCState) (rng : Rng) : Except Err (String × Rng) :=
  let (k, rng₁) := rng.next
  match s.restaurants.get? (k % s.restaurants.length) with
  | some a => .ok (a, rng₁)
  | none => .error (.indexError "Cannot choose from an empty sequence")

/-- State of the classification-based `EpsilonGreedy`
(llm_mad/models/epsilon.py): per-arm (good, bad) counters plus the warm-up
queue.  The classifier dependency is passed at call sites. -/
structure EGCState where
  restaurants : List String
  epsilon : Rat
  counts : List (String × Nat × Nat)
  initialRoundsLeft : List String
deriving DecidableEq

/-- Raw field initialisation of the classification `EpsilonGreedy`:
zeroed counters for every (deduplicated) arm and the full warm-up queue. -/
def EGC.init (rs : List String) (eps : Rat) : EGCState :=
  { restaurants := rs
    epsilon := eps
    counts := (uniques rs).map fun r => (r, 0, 0)
    initialRoundsLeft := rs }

/-- `EpsilonGreedy.__init__` (classification variant): validates the arm
list (base class) and the epsilon range. -/
def EGC.create (rs : List String) (eps : Rat) : Except Err EGCState :=
  if rs = [] then .error (.valueError "Restaurant list cannot be empty.")
  else if 0 ≤ eps ∧ eps ≤ 1 then .ok (EGC.init rs eps)
  else .error (.valueError "Epsilon must be between 0.0 and 1.0.")

/-- The per-arm exploitation metric of the classification `EpsilonGreedy`:
the proportion of "Good" classifications, with `1.0` for an arm with no
observations.  (`counts` holds every configured arm by construction; a
missing key would be a Python `KeyError` and is given the sentinel here.) -/
def EGC.proportion (s : EGCState) (r : String) : Rat :=
  match aget s.counts r with
  | some (g, b) => if g + b = 0 then 1 else (g : Rat) / ((g : Rat) + (b : Rat))
  | none => 1

/-- The exploitation loop body of `EpsilonGreedy.select_restaurant`
(classification variant): track the best proportion and the arms tied for
it. -/
def EGC.bestFold (s : EGCState) (acc : Rat × List String) (r : String) :
    Rat × List String :=
  let p := EGC.proportion s r
  if p > acc.1 then (p, [r]) else if p = acc.1 then (acc.1, acc.2 ++ [r]) else acc

/-- The arms tied for the best "Good" proportion. -/
def EGC.bestArms (s : EGCState) : List String :=
  (s.restaurants.foldl (EGC.bestFold s) ((-1 : Rat), [])).2

/-- `EpsilonGreedy.select_restaurant` (classification variant): warm-up
queue first, then an epsilon-random draw, otherwise a uniform choice among
the arms tied for the best proportion. -/
def EGC.select (s : EGCState) (rng : Rng) : Except Err (String × EGCState × Rng) :=
  match s.initialRoundsLeft with
  | a :: rest => .ok (a, { s with initialRoundsLeft := rest }, rng)
  | [] =>
    let (k, rng₁) := rng.next
    if randFloat k < s.epsilon then
      let (k₂, rng₂) := rng₁.next
      match s.restaurants.get? (k₂ % s.restaurants.length) with
      | some a => .ok (a, s, rng₂)
      | none => .error (.indexError "Cannot choose from an empty sequence")
    else
      let best := EGC.bestArms s
      let (k₂, rng₂) := rng₁.next
      match best.get? (k₂ % best.length) with
      | some a => .ok (a, s, rng₂)
      | none => .error (.indexError "Cannot choose from an empty sequence")

/-- `EpsilonGreedy.update` (classification variant), embedded exactly as
written: classify the text first (propagating oracle errors); on "Good"
increment the arm's good counter; the non-"Good" branch of the source is
the bare expression statement `self.counts` — it modifies nothing. -/
def EGC.update (s : EGCState) (restaurant : String) (reviewText : String)
    (cl : Classifier) : Except Err EGCState :=
  match cl reviewText with
  | .error e => .error e
  | .ok c =>
    if c = "Good" then
      .ok { s with counts := aupd s.counts restaurant fun gb => (gb.1 + 1, gb.2) }
    else
      .ok s

/-- State of `FairweatherFriend` (models/fairweather.py): only the last
choice and the last raw review text.  The classifier dependency is passed
at call sites. -/
structure FWState where
  restaurants : List String
  lastChoice : Option String
  lastReviewText : Option String
deriving DecidableEq

/-- `FairweatherFriend.__init__`: empty arm list raises (base class); the
belief state starts empty. -/
def FW.create (rs : List String) : Except Err FWState :=
  if rs = [] then .error (.valueError "Restaurant list cannot be empty.")
  else .ok { restaurants := rs, lastChoice := none, lastReviewText := none }

/-- Python truthiness of an optional string: `None` and `""` are falsy. -/
def truthy (o : Option String) : Bool :=
  match o with
  | none => false
  | some str => decide (str ≠ "")

/-- The classifier-free arm of `FairweatherFriend.select_restaurant`:
choose uniformly among the arms other than the last choice, falling back to
the first arm when that leaves no options. -/
def FW.selectRandom (s : FWState) (rng : Rng) : Except Err (String × Rng) :=
  let options := s.restaurants.filter fun r => decide (some r ≠ s.lastChoice)
  match options with
  | [] =>
    match s.restaurants with
    | r :: _ => .ok (r, rng)
    | [] => .error (.indexError "list index out of range")
  | _ =>
    let (k, rng₁) := rng.next
    match options.get? (k % options.length) with
    | some a => .ok (a, rng₁)
    | none => .error (.indexError "Cannot choose from an empty sequence")

/-- `FairweatherFriend.select_restaurant`: when both the last choice and
the last review text are truthy, classify the last text and repeat the last
choice on "Good"; in every other case fall through to the random arm. -/
def FW.select (s : FWState) (cl : Classifier) (rng : Rng) :
    Except Err (String × Rng) :=
  if truthy s.lastChoice && truthy s.lastReviewText then
    match cl (s.lastReviewText.getD "") with
    | .error e => .error e
    | .ok c => if c = "Good" then .ok (s.lastChoice.getD "", rng) else FW.selectRandom s rng
  else FW.selectRandom s rng

/-- `FairweatherFriend.update`: record the choice and the raw text. -/
def FW.update (s : FWState) (restaurant : String) (reviewText : String) : FWState :=
  { s with lastChoice := some restaurant, lastReviewText := some reviewText }

/-- The policy family driven by the orchestrator. -/
inductive Policy where
  | rc (s : RCState)
  | egc (s : EGCState)
  | fw (s : FWState)
deriving DecidableEq

/-- Dynamic dispatch of `select_restaurant` over the policy family; the
updated policy is returned (the warm-up queue of `EpsilonGreedy` mutates on
select). -/
def Policy.select (p : Policy) (cl : Classifier) (rng : Rng) :
    Except Err (String × Policy × Rng) :=
  match p with
  | .rc s => (RC.select s rng).map fun ar => (ar.1, .rc s, ar.2)
  | .egc s => (EGC.select s rng).map fun art => (art.1, .egc art.2.1, art.2.2)
  | .fw s => (FW.select s cl rng).map fun ar => (ar.1, .fw s, ar.2)

/-- Dynamic dispatch of `update` with Python keyword-argument typing: a
policy whose `update` signature does not accept the offered feedback kind
raises `TypeError` (`RandomChoice.update(restaurant, score)`,
`EpsilonGreedy.update(restaurant, review_text)`,
`FairweatherFriend.update(restaurant, review_text)`). -/
def Policy.update (p : Policy) (restaurant : String) (fb : Feedback)
    (cl : Classifier) : Except Err Policy :=
  match p, fb with
  | .rc s, .score _ => .ok (.rc s)
  | .rc _, .text _ => .error (.typeError "update() got an unexpected keyword argument review_text")
  | .egc s, .text t => (EGC.update s restaurant t cl).map .egc
  | .egc _, .score _ => .error (.typeError "update() got an unexpected keyword argument score")
  | .fw s, .text t => .ok (.fw (FW.update s restaurant t))
  | .fw _, .score _ => .error (.typeError "update() got an unexpected keyword argument score")

/-- The restaurant list a policy was constructed over. -/
def Policy.restaurantsOf (p : Policy) : List String :=
  match p with
  | .rc s => s.restaurants
  | .egc s => s.restaurants
  | .fw s => s.restaurants

/-- The epsilon of a policy, when it has one. -/
def Policy.epsilonOf (p : Policy) : Option Rat :=
  match p with
  | .egc s => some s.epsilon
  | _ => none

/-- State of the score-based `EpsilonGreedy` (src/models/epsilon.py):
per-arm score lists and their running averages, plus the warm-up queue. -/
structure ScoreEGState where
  restaurants : List String
  epsilon : Rat
  scores : List (String × List Rat)
  averages : List (String × Rat)
  initialRoundsLeft : List String
deriving DecidableEq

/-- Raw field initialisation of the score-based `EpsilonGreedy`: empty
score lists and `0.0` averages for every (deduplicated) arm. -/
def ScoreEG.init (rs : List String) (eps : Rat) : ScoreEGState :=
  { restaurants := rs
    epsilon := eps
    scores := (uniques rs).map fun r => (r, [])
    averages := (uniques rs).map fun r => (r, 0)
    initialRoundsLeft := rs }

/-- `EpsilonGreedy.__init__` (score variant): validates the arm list and
the epsilon range. -/
def ScoreEG.create (rs : List String) (eps : Rat) : Except Err ScoreEGState :=
  if rs = [] then .error (.valueError "Restaurant list cannot be empty.")
  else if 0 ≤ eps ∧ eps ≤ 1 then .ok (ScoreEG.init rs eps)
  else .error (.valueError "Epsilon must be between 0.0 and 1.0.")

/-- The exploitation loop body of the score-based
`EpsilonGreedy.select_restaurant`: track the best average and the arms tied
for it (iterating the `averages` dict items). -/
def ScoreEG.bestFold (acc : Rat × List String) (p : String × Rat) :
    Rat × List String :=
  if p.2 > acc.1 then (p.2, [p.1]) else if p.2 = acc.1 then (acc.1, acc.2 ++ [p.1]) else acc

/-- The arms tied for the best running average, starting from the sentinel
best score `-1.0` used by the source loop. -/
def ScoreEG.bestArms (s : ScoreEGState) : List String :=
  (s.averages.foldl ScoreEG.bestFold ((-1 : Rat), [])).2

/-- `EpsilonGreedy.select_restaurant` (score variant): warm-up queue first,
then an epsilon-random draw, otherwise a uniform choice among the arms tied
for the best average. -/
def ScoreEG.select (s : ScoreEGState) (rng : Rng) :
    Except Err (String × ScoreEGState × Rng) :=
  match s.initialRoundsLeft with
  | a :: rest => .ok (a, { s with initialRoundsLeft := rest }, rng)
  | [] =>
    let (k, rng₁) := rng.next
    if randFloat k < s.epsilon then
      let (k₂, rng₂) := rng₁.next
      match s.restaurants.get? (k₂ % s.restaurants.length) with
      | some a => .ok (a, s, rng₂)
      | none => .error (.indexError "Cannot choose from an empty sequence")
    else
      let best := ScoreEG.bestArms s
      let (k₂, rng₂) := rng₁.next
      match best.get? (k₂ % best.length) with
      | some a => .ok (a, s, rng₂)
      | none => .error (.indexError "Cannot choose from an empty sequence")

/-- Sum of a list of rationals (Python `sum`). -/
def ratSum (l : List Rat) : Rat := l.foldl (fun a b => a + b) 0

/-- `EpsilonGreedy.update` (score variant): append the score to the arm's
list and recompute its running average.  (An arm outside the configured set
would be a Python `KeyError`; the embedding leaves the state unchanged on
that unreachable path.) -/
def ScoreEG.update (s : ScoreEGState) (restaurant : String) (score : Rat) :
    ScoreEGState :=
  let scores' := aupd s.scores restaurant fun l => l ++ [score]
  match aget scores' restaurant with
  | some l =>
    { s with
      scores := scores'
      averages := aset s.averages restaurant (ratSum l / (l.length : Rat)) }
  | none => s

/-- One run-history row `{step, choice, score}`. -/
structure HistEntry where
  step : Nat
  choice : String
  score : Rat
deriving DecidableEq

/-- The `isinstance(algorithm, (models.FairweatherFriend, models.EpsilonGreedy))`
branch condition of `run_simulation`: these policies get the raw text. -/
def usesRawTextSim (p : Policy) : Bool :=
  match p with
  | .fw _ => true
  | .egc _ => true
  | .rc _ => false

/-- The `isinstance(fresh_algorithm, models.FairweatherFriend)` branch
condition of `run_synchronized_experiment`: only `FairweatherFriend` gets
the raw text there. -/
def usesRawTextSync (p : Policy) : Bool :=
  match p with
  | .fw _ => true
  | _ => false

/-- The quantify-with-fallback of both orchestrators: `quantify(review_text)`
with `RuntimeError` and `ValueError` caught, degrading to the record's own
rating; any other exception would propagate. -/
def quantifyOrRating (q : Quantifier) (text : String) (rating : Rat) :
    Except Err Rat :=
  match q text with
  | .ok v => .ok v
  | .error (.runtimeError _) => .ok rating
  | .error (.valueError _) => .ok rating
  | .error e => .error e

/-- The feedback `run_simulation` builds for a policy from a fetched record:
raw text for the classification-branch policies, quantified score (with the
rating fallback) for the rest. -/
def simFeedback (p : Policy) (text : String) (rating : Rat) (q : Quantifier) :
    Except Err Feedback :=
  if usesRawTextSim p then .ok (.text text)
  else (quantifyOrRating q text rating).map .score

/-- The feedback `run_synchronized_experiment` builds for a policy from a
fetched record: raw text only for `FairweatherFriend`. -/
def syncFeedback (p : Policy) (text : String) (rating : Rat) (q : Quantifier) :
    Except Err Feedback :=
  if usesRawTextSync p then .ok (.text text)
  else (quantifyOrRating q text rating).map .score

/-- The post-fetch part of one `run_simulation` step: build the feedback,
update the policy, and append the history row, whose recorded evaluation
score is always the record's own rating. -/
def simProcess (p : Policy) (chosen : String) (r : ReviewRow) (q : Quantifier)
    (cl : Classifier) (step : Nat) : Except Err (HistEntry × Policy) := do
  let fb ← simFeedback p r.review r.rating q
  let p' ← p.update chosen fb cl
  .ok (⟨step, chosen, r.rating⟩, p')

/-- The fetch of one `run_simulation` step: `get_random_review` with
`IndexError` caught once by a `reset` and a single retry. -/
def fetchWithRetry (sel : SelState) (arm : String) (rng : Rng) :
    Except Err (ReviewRow × SelState × Rng) :=
  match getRandomReview sel arm rng with
  | .ok x => .ok x
  | .error (.indexError _) => do
    let sel₁ ← resetSel sel arm
    getRandomReview sel₁ arm rng
  | .error e => .error e

/-- One full `run_simulation` step: select, fetch (with the one-shot reset
retry), process. -/
def simStep (p : Policy) (sel : SelState) (q : Quantifier) (cl : Classifier)
    (step : Nat) (rng : Rng) :
    Except Err (HistEntry × Policy × SelState × Rng) := do
  let (arm, p₁, rng₁) ← p.select cl rng
  let (r, sel₁, rng₂) ← fetchWithRetry sel arm rng₁
  let (entry, p₂) ← simProcess p₁ arm r q cl step
  .ok (entry, p₂, sel₁, rng₂)

/-- The step loop of `run_simulation`. -/
def simLoop (q : Quantifier) (cl : Classifier) :
    Nat → Nat → Policy → SelState → Rng → Except Err (List HistEntry × SelState × Rng)
  | 0, _, _, sel, rng => .ok ([], sel, rng)
  | n + 1, step, p, sel, rng => do
    let (entry, p', sel', rng') ← simStep p sel q cl step rng
    let (rest, sel'', rng'') ← simLoop q cl n (step + 1) p' sel' rng'
    .ok (entry :: rest, sel'', rng'')

/-- `run_simulation`: reset every pool, then run the step loop; the
returned artefact is the ordered history. -/
def runSimulation (p : Policy) (sel : SelState) (q : Quantifier) (cl : Classifier)
    (numSteps : Nat) (rng : Rng) : Except Err (List HistEntry) :=
  (simLoop q cl numSteps 0 p (resetAllSel sel) rng).map fun t => t.1

/-- The fresh-instance construction of `run_synchronized_experiment`: the
source dispatches on `hasattr`.  No policy in the family has a `_quantifier`
attribute, so the `(restaurants, _quantifier, epsilon)` branch is dead; the
classification `EpsilonGreedy` (which has `_classifier`) is rebuilt through
the two-argument `(restaurants, _classifier)` call, leaving its epsilon at
the constructor default `0.1`; `FairweatherFriend` is rebuilt the same way
and `RandomChoice` from its restaurants alone. -/
def freshPolicy (p : Policy) : Except Err Policy :=
  match p with
  | .rc s => (RC.create s.restaurants).map .rc
  | .egc s => (EGC.create s.restaurants ((1 : Rat) / 10)).map .egc
  | .fw s => (FW.create s.restaurants).map .fw

/-- One step of a policy's run inside `run_synchronized_experiment`:
select, fetch the synchronized review for `(step, arm)`, build the
sync-branch feedback, update, and record the rating. -/
def syncStep (p : Policy) (sy : SyncState) (q : Quantifier) (cl : Classifier)
    (step : Nat) (rng : Rng) :
    Except Err (HistEntry × Policy × SyncState × Rng) := do
  let (arm, p₁, rng₁) ← p.select cl rng
  let (r, sy₁, rng₂) ← getSyncReview sy arm (some step) rng₁
  let fb ← syncFeedback p₁ r.review r.rating q
  let p₂ ← p₁.update arm fb cl
  .ok (⟨step, arm, r.rating⟩, p₂, sy₁, rng₂)

/-- The per-policy step loop of `run_synchronized_experiment`. -/
def syncLoop (q : Quantifier) (cl : Classifier) :
    Nat → Nat → Policy → SyncState → Rng → Except Err (List HistEntry × SyncState × Rng)
  | 0, _, _, sy, rng => .ok ([], sy, rng)
  | n + 1, step, p, sy, rng => do
    let (entry, p', sy', rng') ← syncStep p sy q cl step rng
    let (rest, sy'', rng'') ← syncLoop q cl n (step + 1) p' sy' rng'
    .ok (entry :: rest, sy'', rng'')

/-- The per-policy outer loop of `run_synchronized_experiment`: for EACH
policy the source calls `sync_selector.reset_all()` — which clears the
per-arm pools AND the synchronization cache and timestep — then builds the
fresh policy instance and runs its steps. -/
def syncExpLoop (q : Quantifier) (cl : Classifier) (numSteps : Nat) :
    List Policy → SyncState → Rng → Except Err (List (List HistEntry))
  | [], _, _ => .ok []
  | a :: rest, sy, rng => do
    let sy₀ := resetAllSync sy
    let fresh ← freshPolicy a
    let (h, sy₁, rng₁) ← syncLoop q cl numSteps 0 fresh sy₀ rng
    let hs ← syncExpLoop q cl numSteps rest sy₁ rng₁
    .ok (h :: hs)

/-- `run_synchronized_experiment`: wrap the given selector's data in a
`SynchronizedReviewSelector` and run every policy through the per-policy
loop, returning one history per policy. -/
def runSyncExperiment (algorithms : List Policy) (sel : SelState) (q : Quantifier)
    (cl : Classifier) (numSteps : Nat) (rng : Rng) :
    Except Err (List (List HistEntry)) :=
  syncExpLoop q cl numSteps algorithms (SyncState.ofSelector sel) rng

deriving instance DecidableEq for Except

unseal Rat.add Rat.mul Rat.inv Rat.sub

/-- Iteration harness for the no-repeat sampling property: `n` successive
`get_random_review` calls for one arm, collecting the returned records. -/
def drawN (arm : String) : Nat → SelState → Rng → Except Err (List ReviewRow × SelState × Rng)
  | 0, s, rng => .ok ([], s, rng)
  | n + 1, s, rng =>
    match getRandomReview s arm rng with
    | .ok (r, s', rng') => (drawN arm n s' rng').map fun t => (r :: t.1, t.2.1, t.2.2)
    | .error e => .error e

theorem aget_aset_self {κ α : Type} [DecidableEq κ] (l : List (κ × α)) (k : κ) (v : α) :
    aget (aset l k v) k = some v := by
  induction l with
  | nil => simp [aset, aget]
  | cons kv rest ih =>
    by_cases h : k = kv.1
    · simp [aset, aget, h]
    · simp [aset, aget, h, ih]

theorem aget_aset_ne {κ α : Type} [DecidableEq κ] (l : List (κ × α)) (k k' : κ) (v : α)
    (h : k' ≠ k) : aget (aset l k v) k' = aget l k' := by
  induction l with
  | nil => simp [aset, aget, h]
  | cons kv rest ih =>
    by_cases hk : k = kv.1
    · subst hk
      simp [aset, aget, h]
    · by_cases hk' : k' = kv.1
      · simp [aset, aget, hk, hk']
      · simp [aset, aget, hk, hk', ih]

theorem aset_aset {κ α : Type} [DecidableEq κ] (l : List (κ × α)) (k : κ) (v w : α) :
    aset (aset l k v) k w = aset l k w := by
  induction l with
  | nil => simp [aset]
  | cons kv rest ih =>
    by_cases h : k = kv.1
    · simp [aset, h]
    · simp [aset, h, ih]

theorem aset_self {κ α : Type} [DecidableEq κ] (l : List (κ × α)) (k : κ) (v : α)
    (h : aget l k = some v) : aset l k v = l := by
  induction l with
  | nil => simp [aget] at h
  | cons kv rest ih =>
    obtain ⟨a, b⟩ := kv
    by_cases hk : k = a
    · subst hk
      simp [aget] at h
      simp [aset, h]
    · simp [aget, hk] at h
      simp [aset, hk, ih h]

theorem aget_aupd_self {κ α : Type} [DecidableEq κ] (l : List (κ × α)) (k : κ) (f : α → α) :
    aget (aupd l k f) k = (aget l k).map f := by
  induction l with
  | nil => simp [aupd, aget]
  | cons kv rest ih =>
    obtain ⟨a, b⟩ := kv
    by_cases h : k = a
    · simp [aupd, aget, h]
    · simp [aupd, aget, h, ih]

theorem aget_aupd_ne {κ α : Type} [DecidableEq κ] (l : List (κ × α)) (k k' : κ) (f : α → α)
    (h : k' ≠ k) : aget (aupd l k f) k' = aget l k' := by
  induction l with
  | nil => simp [aupd, aget]
  | cons kv rest ih =>
    obtain ⟨a, b⟩ := kv
    by_cases hk : k = a
    · subst hk
      simp [aupd, aget, h, ih]
    · by_cases hk' : k' = a
      · simp [aupd, aget, hk, hk']
      · simp [aupd, aget, hk, hk', ih]

theorem aget_aremove_self {κ α : Type} [DecidableEq κ] (l : List (κ × α)) (k : κ) :
    aget (aremove l k) k = none := by
  induction l with
  | nil => simp [aremove, aget]
  | cons kv rest ih =>
    obtain ⟨a, b⟩ := kv
    by_cases h : k = a
    · subst h
      simp [aremove, ih]
    · simp [aremove, aget, h, ih]

theorem keys_aset {κ α : Type} [DecidableEq κ] (l : List (κ × α)) (k : κ) (v : α) :
    (aset l k v).map Prod.fst =
      if k ∈ l.map Prod.fst then l.map Prod.fst else l.map Prod.fst ++ [k] := by
  induction l with
  | nil => simp [aset]
  | cons kv rest ih =>
    by_cases h : k = kv.1
    · simp [aset, h]
    · by_cases hmem : k ∈ rest.map Prod.fst
      · simp [aset, h, hmem, ih, Ne.symm h]
      · simp [aset, h, hmem, ih, Ne.symm h]

theorem nodup_keys_aset {κ α : Type} [DecidableEq κ] (l : List (κ × α)) (k : κ) (v : α)
    (h : (l.map Prod.fst).Nodup) : ((aset l k v).map Prod.fst).Nodup := by
  rw [keys_aset]
  by_cases hmem : k ∈ l.map Prod.fst
  · simpa [hmem] using h
  · simp only [hmem, if_false]
    simp [List.nodup_append, h, hmem]

theorem aget_of_mem_nodup {κ α : Type} [DecidableEq κ] (l : List (κ × α)) (k : κ) (v : α)
    (hnd : (l.map Prod.fst).Nodup) (hmem : (k, v) ∈ l) : aget l k = some v := by
  induction l with
  | nil => simp at hmem
  | cons kv rest ih =>
    simp only [List.map_cons, List.nodup_cons] at hnd
    rcases List.mem_cons.mp hmem with h | h
    · rw [← h]
      simp [aget]
    · by_cases hk : k = kv.1
      · exact absurd (hk ▸ List.mem_map_of_mem Prod.fst h) hnd.1
      · simp only [aget, hk, if_false]
        exact ih hnd.2 h

theorem aget_map_const {α : Type} (rs : List String) (c : α) (x : String) :
    aget (rs.map fun r => (r, c)) x = if x ∈ rs then some c else none := by
  induction rs with
  | nil => simp [aget]
  | cons r t ih =>
    by_cases h : x = r
    · simp [aget, h]
    · simp [aget, h, ih]

theorem mem_uniquesAux (l : List String) :
    ∀ (seen : List String) (x : String),
      x ∈ uniquesAux seen l ↔ x ∈ l ∧ x ∉ seen := by
  induction l with
  | nil => intro seen x; simp [uniquesAux]
  | cons a t ih =>
    intro seen x
    by_cases ha : a ∈ seen
    · by_cases hx : x = a
      · subst hx
        simp [uniquesAux, ha, ih, ha]
      · simp [uniquesAux, ha, ih, hx]
    · by_cases hx : x = a
      · subst hx
        simp [uniquesAux, ha, ih]
      · simp only [uniquesAux, ha, if_false, List.mem_cons, ih, List.mem_cons]
        constructor
        · rintro (h | ⟨h₁, h₂⟩)
          · exact absurd h hx
          · exact ⟨Or.inr h₁, fun hs => h₂ (Or.inr hs)⟩
        · rintro ⟨h₁ | h₁, h₂⟩
          · exact absurd h₁ hx
          · exact Or.inr ⟨h₁, fun hs => h₂ (by
              rcases hs with h | h
              · exact absurd h hx
              · exact h)⟩

theorem mem_uniques (l : List String) (x : String) : x ∈ uniques l ↔ x ∈ l := by
  simp [uniques, mem_uniquesAux]

theorem nodup_uniquesAux (l : List String) :
    ∀ seen : List String, (uniquesAux seen l).Nodup := by
  induction l with
  | nil => intro seen; simp [uniquesAux]
  | cons a t ih =>
    intro seen
    by_cases ha : a ∈ seen
    · simpa [uniquesAux, ha] using ih seen
    · simp only [uniquesAux, ha, if_false, List.nodup_cons]
      refine ⟨fun hmem => ?_, ih (a :: seen)⟩
      exact ((mem_uniquesAux t (a :: seen) a).mp hmem).2 (List.mem_cons_self a seen)

theorem nodup_uniques (l : List String) : (uniques l).Nodup := nodup_uniquesAux l []

theorem shuffleWith_perm (k : Nat) (l : List Nat) : (shuffleWith k l).Perm l := by
  unfold shuffleWith
  have h : (l.drop (k % l.length) ++ l.take (k % l.length)).Perm
      (l.take (k % l.length) ++ l.drop (k % l.length)) := List.perm_append_comm
  rwa [List.take_append_drop] at h

theorem drawN_drain (arm : String) (idxs : List Nat) (l : List Nat) :
    ∀ (s : SelState) (rng : Rng),
      arm ∈ s.restaurants →
      aget s.reviewIndices arm = some idxs →
      aget s.shuffled arm = some l →
      (∀ i ∈ l, (loc s.data i).isSome) →
      drawN arm l.length s rng =
        .ok (l.reverse.filterMap (loc s.data),
          { s with shuffled := aset s.shuffled arm [] }, rng) := by
  induction l using List.reverseRecOn with
  | nil =>
    intro s rng h₁ h₂ h₃ h₄
    simp only [List.length_nil, List.reverse_nil, List.filterMap_nil, drawN]
    rw [aset_self s.shuffled arm [] h₃]
  | append_singleton l₀ x ih =>
    intro s rng h₁ h₂ h₃ h₄
    obtain ⟨r, hr⟩ := Option.isSome_iff_exists.mp (h₄ x (by simp))
    have hlen : (l₀ ++ [x]).length = l₀.length + 1 := by simp
    rw [hlen]
    have hget : getRandomReview s arm rng =
        .ok (r, { s with shuffled := aset s.shuffled arm l₀ }, rng) := by
      simp only [getRandomReview, h₁, if_pos, h₂, h₃]
      simp [popFrom, List.getLast?_concat, hr, List.dropLast_concat]
    have hih := ih { s with shuffled := aset s.shuffled arm l₀ } rng h₁ h₂
      (aget_aset_self s.shuffled arm l₀)
      (fun i hi => h₄ i (by simp [hi]))
    simp only [drawN, hget, hih, Except.map]
    simp [List.filterMap_append, List.filterMap_cons, hr, aset_aset]

/-- C7: for every configured arm with at least one record and a fresh (or
just-reset) pool, drawing `|records-for-arm|` times returns exactly the
records of that arm, each once, in some permuted order, and the very next
call fails with the exhaustion `IndexError`. -/
theorem c7_theorem (s : SelState) (arm : String) (idxs : List Nat) (rng : Rng)
    (hmem : arm ∈ s.restaurants)
    (hidx : aget s.reviewIndices arm = some idxs)
    (hne : idxs ≠ [])
    (hfresh : aget s.shuffled arm = none)
    (hloc : ∀ i ∈ idxs, (loc s.data i).isSome) :
    ∃ recs s' rng',
      drawN arm idxs.length s rng = .ok (recs, s', rng') ∧
      recs.Perm (idxs.filterMap (loc s.data)) ∧
      ∀ rng₂, getRandomReview s' arm rng₂ =
        .error (.indexError s!"All reviews for restaurant {arm} have been selected.") := by
  have hperm : (shuffleWith rng.peek idxs).Perm idxs := shuffleWith_perm rng.peek idxs
  set l := shuffleWith rng.peek idxs with hl
  have hlen : l.length = idxs.length := hperm.length_eq
  have hlne : l ≠ [] := by
    intro hnil
    apply hne
    have := hperm.length_eq
    rw [hnil] at this
    exact List.eq_nil_of_length_eq_zero this.symm
  rcases List.eq_nil_or_concat l with hnil | ⟨l₀, x, hcat⟩
  · exact absurd hnil hlne
  · have hxmem : x ∈ idxs := hperm.mem_iff.mp (by rw [hcat]; simp)
    obtain ⟨r, hr⟩ := Option.isSome_iff_exists.mp (hloc x hxmem)
    have hrng : rng.next = (rng.peek, ⟨rng.stream, rng.pos + 1⟩) := rfl
    have hget : getRandomReview s arm rng =
        .ok (r, { s with shuffled := aset s.shuffled arm l₀ },
          ⟨rng.stream, rng.pos + 1⟩) := by
      simp only [getRandomReview, hmem, if_pos, hidx, hfresh, hrng, ← hl]
      rw [hcat]
      simp [popFrom, List.getLast?_concat, hr, List.dropLast_concat]
    have hdrain := drawN_drain arm idxs l₀
      { s with shuffled := aset s.shuffled arm l₀ } ⟨rng.stream, rng.pos + 1⟩
      hmem hidx (aget_aset_self s.shuffled arm l₀)
      (fun i hi => hloc i (hperm.mem_iff.mp (by rw [hcat]; simp [hi])))
    have hsucc : idxs.length = l₀.length + 1 := by
      rw [← hlen, hcat]
      simp
    refine ⟨r :: l₀.reverse.filterMap (loc s.data),
      { s with shuffled := aset s.shuffled arm [] },
      ⟨rng.stream, rng.pos + 1⟩, ?_, ?_, ?_⟩
    · rw [hsucc]
      simp only [drawN, hget, hdrain, Except.map]
      simp [aset_aset]
    · have hrec : r :: l₀.reverse.filterMap (loc s.data) =
          l.reverse.filterMap (loc s.data) := by
        rw [hcat]
        simp [List.filterMap_append, List.filterMap_cons, hr]
      rw [hrec]
      exact List.Perm.filterMap (loc s.data) (l.reverse_perm.trans hperm)
    · intro rng₂
      simp only [getRandomReview, hmem, if_pos, hidx, aget_aset_self]
      simp [popFrom]

theorem getSync_hit (s : SyncState) (arm : String) (t : Option Nat) (rng : Rng)
    (r : ReviewRow) (h : aget s.cache (resolveT s t, arm) = some r) :
    getSyncReview s arm t rng = .ok (r, s, rng) := by
  simp [getSyncReview, h]

theorem getSync_cache_shape (s : SyncState) (arm : String) (t : Option Nat) (rng : Rng)
    (r : ReviewRow) (s' : SyncState) (rng' : Rng)
    (h : getSyncReview s arm t rng = .ok (r, s', rng')) :
    aget s'.cache (resolveT s t, arm) = some r ∧
      (s'.cache = s.cache ∨
        (aget s.cache (resolveT s t, arm) = none ∧
          s'.cache = aset s.cache (resolveT s t, arm) r)) := by
  cases hc : aget s.cache (resolveT s t, arm) with
  | some v =>
    rw [getSync_hit s arm t rng v hc] at h
    cases h
    exact ⟨hc, Or.inl rfl⟩
  | none =>
    simp only [getSyncReview, hc] at h
    cases hg : getRandomReview s.base arm rng with
    | ok x =>
      obtain ⟨r₁, b₁, rng₁⟩ := x
      simp only [hg] at h
      cases h
      exact ⟨aget_aset_self _ _ _, Or.inr ⟨rfl, rfl⟩⟩
    | error e =>
      simp only [hg] at h
      cases e with
      | indexError m =>
        simp only at h
        cases hrs : resetSel s.base arm with
        | ok b₁ =>
          simp only [hrs] at h
          cases hg₂ : getRandomReview b₁ arm rng with
          | ok x₂ =>
            obtain ⟨r₂, b₂, rng₂⟩ := x₂
            simp only [hg₂] at h
            cases h
            exact ⟨aget_aset_self _ _ _, Or.inr ⟨rfl, rfl⟩⟩
          | error e₂ =>
            simp only [hg₂] at h
            cases h
        | error e₁ =>
          simp only [hrs] at h
          cases h
      | valueError m => cases h
      | keyError m => cases h
      | typeError m => cases h
      | runtimeError m => cases h

/-- The operations available on a `SynchronizedReviewSelector` that do not
clear the synchronization cache: a synchronized fetch for any key, a
per-arm pool reset, a timestep change, and a plain random fetch.  One step
relates a state to a successor produced by one such successful operation. -/
inductive SyncStep : SyncState → SyncState → Prop where
  | getSync (s : SyncState) (arm : String) (t : Option Nat) (rng : Rng)
      (r : ReviewRow) (s' : SyncState) (rng' : Rng)
      (h : getSyncReview s arm t rng = .ok (r, s', rng')) : SyncStep s s'
  | resetArm (s : SyncState) (arm : String) (b' : SelState)
      (h : resetSel s.base arm = .ok b') : SyncStep s { s with base := b' }
  | setT (s : SyncState) (t : Nat) : SyncStep s (setTimestep s t)
  | getRandom (s : SyncState) (arm : String) (rng : Rng) (r : ReviewRow)
      (b' : SelState) (rng' : Rng)
      (h : getRandomReview s.base arm rng = .ok (r, b', rng')) :
      SyncStep s { s with base := b' }

theorem syncStep_cache {s s' : SyncState} (hstep : SyncStep s s')
    (key : Nat × String) (r : ReviewRow) (h : aget s.cache key = some r) :
    aget s'.cache key = some r := by
  cases hstep
  case getSync =>
    rename_i arm t rng rr rng₁ hg
    rcases (getSync_cache_shape s arm t rng rr s' rng₁ hg).2 with hsame | ⟨hnone, hset⟩
    · rw [hsame]
      exact h
    · rw [hset]
      have hne : key ≠ (resolveT s t, arm) := by
        intro heq
        rw [heq] at h
        rw [h] at hnone
        cases hnone
      rw [aget_aset_ne _ _ _ _ hne]
      exact h
  case resetArm => exact h
  case setT => exact h
  case getRandom => exact h

theorem syncSteps_cache {s s' : SyncState}
    (hsteps : Relation.ReflTransGen SyncStep s s') (key : Nat × String)
    (r : ReviewRow) (hb : aget s.cache key = some r) :
    aget s'.cache key = some r := by
  induction hsteps with
  | refl => exact hb
  | tail hab hbc ih => exact syncStep_cache hbc _ _ ih

/-- C8: `get_synchronized_review` is idempotent per `(timestep, arm)` key:
once a first call for a key has succeeded with record `r`, then after any
sequence of cache-preserving operations (further synchronized or plain
fetches for any keys, per-arm resets, timestep changes — everything except
clearing the cache), a second call resolving to the same key returns the
identical record and leaves the state unchanged. -/
theorem c8_theorem (s : SyncState) (arm : String) (t : Option Nat) (rng : Rng)
    (r : ReviewRow) (s₁ : SyncState) (rng₁ : Rng)
    (hfirst : getSyncReview s arm t rng = .ok (r, s₁, rng₁))
    (s₂ : SyncState) (hsteps : Relation.ReflTransGen SyncStep s₁ s₂)
    (t₂ : Option Nat) (hkey : resolveT s₂ t₂ = resolveT s t) (rng₂ : Rng) :
    getSyncReview s₂ arm t₂ rng₂ = .ok (r, s₂, rng₂) := by
  have hbind : aget s₁.cache (resolveT s t, arm) = some r :=
    (getSync_cache_shape s arm t rng r s₁ rng₁ hfirst).1
  have hbind₂ : aget s₂.cache (resolveT s t, arm) = some r :=
    syncSteps_cache hsteps _ _ hbind
  apply getSync_hit
  rw [hkey]
  exact hbind₂

theorem scoreFold_acc_le (l : List (String × Rat)) :
    ∀ acc : Rat × List String, acc.1 ≤ (l.foldl ScoreEG.bestFold acc).1 := by
  induction l with
  | nil => intro acc; exact le_refl _
  | cons p t ih =>
    intro acc
    have step : acc.1 ≤ (ScoreEG.bestFold acc p).1 := by
      unfold ScoreEG.bestFold
      by_cases h₁ : p.2 > acc.1
      · simp only [h₁, if_true]
        exact le_of_lt h₁
      · by_cases h₂ : p.2 = acc.1 <;> simp [h₁, h₂]
    rw [List.foldl_cons]
    exact le_trans step (ih _)

theorem scoreFold_le (l : List (String × Rat)) :
    ∀ (acc : Rat × List String) (x : String) (v : Rat), (x, v) ∈ l →
      v ≤ (l.foldl ScoreEG.bestFold acc).1 := by
  induction l with
  | nil =>
    intro acc x v hm
    simp at hm
  | cons p t ih =>
    intro acc x v hm
    rw [List.foldl_cons]
    rcases List.mem_cons.mp hm with h | h
    · have hpv : p.2 = v := by rw [← h]
      have hstep : p.2 ≤ (ScoreEG.bestFold acc p).1 := by
        unfold ScoreEG.bestFold
        by_cases h₁ : p.2 > acc.1
        · simp [h₁]
        · by_cases h₂ : p.2 = acc.1
          · simp [h₁, h₂]
          · simp only [h₁, if_false, h₂]
            exact le_of_not_lt h₁
      have hv : v ≤ (ScoreEG.bestFold acc p).1 := by
        rw [← hpv]
        exact hstep
      exact le_trans hv (scoreFold_acc_le t _)
    · exact ih _ x v h

theorem scoreFold_mem (l : List (String × Rat)) :
    ∀ (acc : Rat × List String) (r : String), r ∈ (l.foldl ScoreEG.bestFold acc).2 →
      (r ∈ acc.2 ∧ (l.foldl ScoreEG.bestFold acc).1 = acc.1) ∨
        (r, (l.foldl ScoreEG.bestFold acc).1) ∈ l := by
  induction l with
  | nil =>
    intro acc r h
    exact Or.inl ⟨h, rfl⟩
  | cons p t ih =>
    intro acc r h
    rw [List.foldl_cons] at h ⊢
    obtain ⟨pn, pv⟩ := p
    by_cases h₁ : pv > acc.1
    · have hacc : ScoreEG.bestFold acc (pn, pv) = (pv, [pn]) := by
        unfold ScoreEG.bestFold
        simp [h₁]
      rw [hacc] at h ⊢
      rcases ih (pv, [pn]) r h with ⟨hin, heq⟩ | hmem
      · have hr : r = pn := by simpa using hin
        subst hr
        right
        rw [heq]
        exact List.mem_cons_self _ _
      · right
        exact List.mem_cons_of_mem _ hmem
    · by_cases h₂ : pv = acc.1
      · have hacc : ScoreEG.bestFold acc (pn, pv) = (acc.1, acc.2 ++ [pn]) := by
          unfold ScoreEG.bestFold
          simp [h₁, h₂]
        rw [hacc] at h ⊢
        rcases ih (acc.1, acc.2 ++ [pn]) r h with ⟨hin, heq⟩ | hmem
        · rcases List.mem_append.mp hin with hin₀ | hin₁
          · exact Or.inl ⟨hin₀, heq⟩
          · have hr : r = pn := by simpa using hin₁
            subst hr
            right
            rw [heq, ← h₂]
            exact List.mem_cons_self _ _
        · right
          exact List.mem_cons_of_mem _ hmem
      · have hacc : ScoreEG.bestFold acc (pn, pv) = acc := by
          unfold ScoreEG.bestFold
          simp [h₁, h₂]
        rw [hacc] at h ⊢
        rcases ih acc r h with hl | hmem
        · exact Or.inl hl
        · right
          exact List.mem_cons_of_mem _ hmem

theorem scoreSelect_fields (s : ScoreEGState) (rng : Rng) (a : String)
    (s' : ScoreEGState) (rng' : Rng)
    (h : ScoreEG.select s rng = .ok (a, s', rng')) :
    s'.scores = s.scores ∧ s'.averages = s.averages := by
  unfold ScoreEG.select at h
  cases hirl : s.initialRoundsLeft with
  | cons b rest =>
    rw [hirl] at h
    cases h
    exact ⟨rfl, rfl⟩
  | nil =>
    rw [hirl] at h
    simp only [Rng.next] at h
    by_cases hc : randFloat (rng.stream rng.pos) < s.epsilon
    · simp only [hc, if_true] at h
      split at h <;> cases h
      exact ⟨rfl, rfl⟩
    · simp only [hc, if_false] at h
      split at h <;> cases h
      exact ⟨rfl, rfl⟩

/-- The states a score-based `EpsilonGreedy` can actually be in: freshly
constructed, or reached through its own `update` and `select_restaurant`
operations. -/
inductive ScoreEG.Reachable : ScoreEGState → Prop where
  | init (rs : List String) (eps : Rat) : Reachable (ScoreEG.init rs eps)
  | update (s : ScoreEGState) (r : String) (x : Rat) (h : Reachable s) :
      Reachable (ScoreEG.update s r x)
  | selectStep (s : ScoreEGState) (rng : Rng) (a : String) (s' : ScoreEGState)
      (rng' : Rng) (h : Reachable s)
      (hs : ScoreEG.select s rng = .ok (a, s', rng')) : Reachable s'

theorem scoreReach_inv (s : ScoreEGState) (h : ScoreEG.Reachable s) :
    (s.averages.map Prod.fst).Nodup ∧
      ∀ b, aget s.scores b = some [] → aget s.averages b = some 0 := by
  induction h with
  | init rs eps =>
    constructor
    · unfold ScoreEG.init
      rw [List.map_map]
      have heq : (Prod.fst ∘ fun r : String => (r, (0 : Rat))) = id := rfl
      rw [heq, List.map_id]
      exact nodup_uniques rs
    · intro b hb
      unfold ScoreEG.init at hb ⊢
      simp only at hb ⊢
      rw [aget_map_const] at hb ⊢
      by_cases hmem : b ∈ uniques rs
      · simp [hmem]
      · simp [hmem] at hb
  | update s r x hreach ih =>
    unfold ScoreEG.update
    cases hg : aget (aupd s.scores r fun l => l ++ [x]) r with
    | none =>
      simp only [hg]
      exact ih
    | some l =>
      simp only [hg]
      refine ⟨nodup_keys_aset _ _ _ ih.1, ?_⟩
      intro b hb
      by_cases hbr : b = r
      · subst hbr
        rw [hg] at hb
        cases hb
        rw [aget_aupd_self] at hg
        cases hval : aget s.scores b with
        | none =>
          rw [hval] at hg
          cases hg
        | some w =>
          rw [hval] at hg
          simp at hg
      · rw [aget_aupd_ne _ _ _ _ hbr] at hb
        rw [aget_aset_ne _ _ _ _ hbr]
        exact ih.2 b hb
  | selectStep s rng a s' rng' hreach hsel ih =>
    obtain ⟨h₁, h₂⟩ := scoreSelect_fields s rng a s' rng' hsel
    rw [h₁, h₂]
    exact ih

/-- C4 amended: in the score-based `EpsilonGreedy`, an arm with no
observed scores keeps its construction-time mean of `0.0` (there is no
high sentinel), so whenever any arm carries a strictly positive average the
unobserved arm is NOT among the arms tied for the maximum mean. -/
theorem c4_theorem (s : ScoreEGState) (b a : String) (va : Rat)
    (hreach : ScoreEG.Reachable s)
    (hb : aget s.scores b = some [])
    (ha : (a, va) ∈ s.averages)
    (hva : 0 < va) : b ∉ ScoreEG.bestArms s := by
  intro hmem
  obtain ⟨hnd, hempty⟩ := scoreReach_inv s hreach
  have hb0 : aget s.averages b = some 0 := hempty b hb
  unfold ScoreEG.bestArms at hmem
  rcases scoreFold_mem s.averages ((-1 : Rat), []) b hmem with ⟨hin, _⟩ | hpair
  · simp at hin
  · have hbval : aget s.averages b =
        some ((s.averages.foldl ScoreEG.bestFold ((-1 : Rat), [])).1) :=
      aget_of_mem_nodup _ _ _ hnd hpair
    have hf0 : (s.averages.foldl ScoreEG.bestFold ((-1 : Rat), [])).1 = 0 := by
      have := hb0.symm.trans hbval
      injection this with heq
      exact heq.symm
    have hle : va ≤ (s.averages.foldl ScoreEG.bestFold ((-1 : Rat), [])).1 :=
      scoreFold_le s.averages _ a va ha
    rw [hf0] at hle
    linarith

/-- C9: in `run_simulation`, when the oracle's `quantify` fails on the step's
review text (with the `RuntimeError` or `ValueError` it can raise), the
orchestrator catches the error, uses the record's own `Rating` field as the
update score, and the step still completes normally, producing its history
entry — the failure is non-fatal. -/
theorem c9_theorem (s : RCState) (chosen : String) (r : ReviewRow) (q : Quantifier)
    (cl : Classifier) (step : Nat) (m : String)
    (hq : q r.review = .error (.runtimeError m) ∨ q r.review = .error (.valueError m)) :
    simFeedback (.rc s) r.review r.rating q = .ok (.score r.rating) ∧
    simProcess (.rc s) chosen r q cl step = .ok (⟨step, chosen, r.rating⟩, .rc s) := by
  have hfb : simFeedback (.rc s) r.review r.rating q = .ok (.score r.rating) := by
    rcases hq with h | h <;>
      simp [simFeedback, usesRawTextSim, quantifyOrRating, h, Except.map]
  refine ⟨hfb, ?_⟩
  simp [simProcess, hfb, Policy.update, Bind.bind, Except.bind]

theorem selectRandom_spec (s : FWState) (rng : Rng)
    (hne : s.restaurants.filter (fun r => decide (some r ≠ s.lastChoice)) ≠ []) :
    ∃ a rng₁, FW.selectRandom s rng = .ok (a, rng₁) ∧
      a ∈ s.restaurants.filter (fun r => decide (some r ≠ s.lastChoice)) ∧
      (s.restaurants.filter (fun r => decide (some r ≠ s.lastChoice))).get?
        (rng.peek %
          (s.restaurants.filter (fun r => decide (some r ≠ s.lastChoice))).length) =
        some a := by
  cases hops : s.restaurants.filter (fun r => decide (some r ≠ s.lastChoice)) with
  | nil => exact absurd hops hne
  | cons a t =>
    have hlt : rng.peek % (a :: t).length < (a :: t).length := by
      apply Nat.mod_lt
      simp
    cases hg : (a :: t).get? (rng.peek % (a :: t).length) with
    | none =>
      rw [List.get?_eq_none] at hg
      exact absurd hg (not_le_of_lt hlt)
    | some x =>
      refine ⟨x, ⟨rng.stream, rng.pos + 1⟩, ?_, List.get?_mem hg, rfl⟩
      unfold FW.selectRandom
      rw [hops]
      simp only [Rng.next, Rng.peek] at hg ⊢
      rw [hg]

/-- C10: `FairweatherFriend` treats an empty review text as if there were no
previous observation: whenever the last recorded review text is `""`, the
next `select_restaurant` never consults the classifier (the result is the
same for every classifier) and draws uniformly among the arms other than the
last choice (when that exclusion set is non-empty, the draw `k` picks its
element at position `k mod size`). -/
theorem c10_theorem (s : FWState) (cl cl' : Classifier) (rng : Rng)
    (hempty : s.lastReviewText = some "") :
    FW.select s cl rng = FW.selectRandom s rng ∧
    FW.select s cl rng = FW.select s cl' rng ∧
    ∀ opts, opts = s.restaurants.filter (fun r => decide (some r ≠ s.lastChoice)) →
      opts ≠ [] →
      ∃ a rng₁, FW.select s cl rng = .ok (a, rng₁) ∧ a ∈ opts ∧
        opts.get? (rng.peek % opts.length) = some a := by
  have hcond : (truthy s.lastChoice && truthy s.lastReviewText) = false := by
    rw [hempty]
    simp [truthy]
  have hsel : FW.select s cl rng = FW.selectRandom s rng := by
    unfold FW.select
    rw [hcond]
    simp
  have hsel' : FW.select s cl' rng = FW.selectRandom s rng := by
    unfold FW.select
    rw [hcond]
    simp
  refine ⟨hsel, hsel.trans hsel'.symm, ?_⟩
  intro opts hopts hne
  subst hopts
  rw [hsel]
  exact selectRandom_spec s rng hne

/-- C6 amended: constructing a `ReviewSelector` with an explicitly requested
arm set that is empty after filtering the record collection does NOT fail at
construction time — `__init__` performs no validation.  The failure only
surfaces on the first `get_random_review` for such an arm, as the
"no reviews available" `IndexError`. -/
theorem c6_theorem (data : List ReviewRow) (rs : List String) (arm : String) (rng : Rng)
    (hmem : arm ∈ rs)
    (hnone : ∀ r ∈ data, r.restaurant ∉ rs) :
    getRandomReview (ReviewSelector.init data (some rs)) arm rng =
      .error (.indexError s!"No reviews available for restaurant {arm}.") := by
  have hinit : ReviewSelector.init data (some rs) = mkSelWithArms data.enum rs := rfl
  have hfilter : data.enum.filter (fun kv => decide (kv.2.restaurant ∈ rs)) = [] := by
    rw [List.filter_eq_nil_iff]
    intro kv hkv
    have h2 : kv.2 ∈ data := by
      have hsnd := List.enum_map_snd data
      rw [← hsnd]
      exact List.mem_map_of_mem Prod.snd hkv
    simp only [decide_eq_true_eq]
    exact hnone kv.2 h2
  have hsel : mkSelWithArms data.enum rs =
      { data := [], restaurants := uniques rs, reviewIndices := [], shuffled := [] } := by
    unfold mkSelWithArms
    rw [hfilter]
    rfl
  rw [hinit, hsel]
  have harm : arm ∈ uniques rs := (mem_uniques rs arm).mpr hmem
  unfold getRandomReview
  rw [if_pos harm]
  simp [aget]

/-- A zero random stream. -/
def rngZ : Rng := ⟨fun _ => 0, 0⟩

/-- A two-record one-restaurant review corpus. -/
def dataC1 : List ReviewRow := [⟨"A", "r0", 1⟩, ⟨"A", "r1", 2⟩]

/-- Selector over `dataC1` with the restaurant set inferred. -/
def selC1 : SelState := ReviewSelector.init dataC1 none

/-- A random stream whose first two draws are 0 and the rest 1: the two
per-policy shuffles of a synchronized experiment then rotate the pool
differently. -/
def rngC1 : Rng := ⟨fun n => if n ≤ 1 then 0 else 1, 0⟩

/-- A quantifier that always succeeds with 50. -/
def qOk : Quantifier := fun _ => .ok 50

/-- A quantifier that always fails with the transport error `quantify`
raises after exhausting its retries. -/
def qFail : Quantifier := fun _ => .error (.runtimeError "Failed to get a valid response")

/-- A classifier that always answers "Good". -/
def clGood : Classifier := fun _ => .ok "Good"

/-- A classifier that always answers "Bad". -/
def clBad : Classifier := fun _ => .ok "Bad"

/-- A classifier that always raises the malformed-label `ValueError`. -/
def clErr : Classifier := fun _ => .error (.valueError "Invalid classification returned")

/-- A fresh classification-based EpsilonGreedy over two arms. -/
def egC2 : EGCState := EGC.init ["A", "B"] ((1 : Rat) / 10)

/-- A classification-based EpsilonGreedy policy over one arm with epsilon 0. -/
def egcC3 : Policy := .egc (EGC.init ["A"] 0)

/-- A corpus whose only restaurant is "A". -/
def dataC6 : List ReviewRow := [⟨"A", "r0", 3⟩]

/-- A score-based EpsilonGreedy over two arms, past its warm-up. -/
def sC4pre : ScoreEGState := { ScoreEG.init ["A", "B"] 0 with initialRoundsLeft := [] }

/-- `sC4pre` after one observation of score 5 for arm "A"; arm "B" has no
observations. -/
def sC4 : ScoreEGState := ScoreEG.update sC4pre "A" 5

/-- A synchronized selector over `dataC1`. -/
def syC8 : SyncState := SyncState.ofSelector selC1

/-- A FairweatherFriend state whose most recent update recorded choice "A"
with an empty review text. -/
def fwC10 : FWState :=
  { restaurants := ["A", "B"], lastChoice := some "A", lastReviewText := some "" }

/-- A record for the quantify-failure step. -/
def rwC9 : ReviewRow := ⟨"A", "awful service", 2⟩

/-- C1 (code bug): in `run_synchronized_experiment` the synchronization
cache is cleared by `reset_all()` inside the per-policy loop, not once
before the experiment; as a result two policies that both choose arm "A" at
step 0 observe different records (ratings 2 and 1) — contradicting the
claim (and the function's own docstring) that identical `(step, arm)`
choices yield the identical `FeedbackRecord`. -/
theorem c1_theorem :
    runSyncExperiment [Policy.rc ⟨["A"]⟩, Policy.rc ⟨["A"]⟩] selC1 qOk clGood 1 rngC1 =
      .ok [[⟨0, "A", 2⟩], [⟨0, "A", 1⟩]] ∧
    (⟨0, "A", 2⟩ : HistEntry) ≠ ⟨0, "A", 1⟩ := by
  constructor
  · decide
  · decide

/-- C2 (code bug): a successful `update` whose text the oracle classifies as
"Bad" leaves the classification EpsilonGreedy's counts completely unchanged
(the source's non-"Good" branch is the bare statement `self.counts`), so
after one successful update good_count + bad_count is 0, not 1. -/
theorem c2_theorem :
    EGC.update egC2 "A" "the soup was cold" clBad = .ok egC2 ∧
    aget egC2.counts "A" = some (0, 0) ∧
    aget egC2.counts "B" = some (0, 0) := by
  refine ⟨?_, ?_, ?_⟩ <;> decide

/-- C3 (code bug): `run_simulation` routes the classification EpsilonGreedy
through the raw-text branch, but `run_synchronized_experiment` routes the
same policy through the quantified-score branch, where the keyword call
`update(restaurant=..., score=...)` raises `TypeError` — the two
orchestrators do not branch alike, contrary to the claim. -/
theorem c3_theorem :
    usesRawTextSim egcC3 = true ∧
    usesRawTextSync egcC3 = false ∧
    runSimulation egcC3 selC1 qOk clGood 1 rngC1 = .ok [⟨0, "A", 2⟩] ∧
    runSyncExperiment [egcC3] selC1 qOk clGood 1 rngC1 =
      .error (.typeError "update() got an unexpected keyword argument score") := by
  refine ⟨?_, ?_, ?_, ?_⟩ <;> decide

/-- C5 (code bug): the fresh instance `run_synchronized_experiment` builds
for a classification EpsilonGreedy goes through the two-argument
`(restaurants, _classifier)` constructor call (the `_quantifier` branch is
dead code), so an original with epsilon 1/2 is rebuilt with the constructor
default epsilon 1/10 — the construction parameters are not identical. -/
theorem c5_theorem :
    Policy.epsilonOf (.egc (EGC.init ["A", "B"] ((1 : Rat) / 2))) = some ((1 : Rat) / 2) ∧
    (freshPolicy (.egc (EGC.init ["A", "B"] ((1 : Rat) / 2)))).map Policy.epsilonOf =
      .ok (some ((1 : Rat) / 10)) ∧
    ((1 : Rat) / 10) ≠ (1 : Rat) / 2 := by
  refine ⟨?_, ?_, ?_⟩ <;> decide

/-- C4 counterexample: with arm "A" observed once (score 5) and arm "B"
unobserved, the unobserved arm keeps mean 0.0 — it is NOT assigned a high
sentinel — so the set of arms tied for the maximum mean is just ["A"] and
exploitation (epsilon 0) selects "A": the unobserved arm is strictly less
preferred than the observed one. -/
theorem c4_counterexample :
    aget sC4.scores "B" = some [] ∧
    aget sC4.scores "A" = some [5] ∧
    ScoreEG.bestArms sC4 = ["A"] ∧
    (ScoreEG.select sC4 rngZ).map (fun t => t.1) = .ok "A" := by
  refine ⟨?_, ?_, ?_, ?_⟩ <;> decide

/-- C4 witness: the amended statement applied to the concrete two-arm state
`sC4` (reached by construction, warm-up selects and one update). -/
theorem c4_witness : "B" ∉ ScoreEG.bestArms sC4 := by
  have h₀ : ScoreEG.Reachable (ScoreEG.init ["A", "B"] 0) := ScoreEG.Reachable.init _ _
  have h₁ : ScoreEG.Reachable
      { ScoreEG.init ["A", "B"] 0 with initialRoundsLeft := ["B"] } :=
    ScoreEG.Reachable.selectStep _ rngZ "A" _ rngZ h₀ rfl
  have h₂ : ScoreEG.Reachable sC4pre :=
    ScoreEG.Reachable.selectStep _ rngZ "B" _ rngZ h₁ rfl
  have hreach : ScoreEG.Reachable sC4 := ScoreEG.Reachable.update _ "A" 5 h₂
  exact c4_theorem sC4 "B" "A" 5 hreach (by decide) (by decide) (by decide)

/-- C6 counterexample: requesting restaurant set ["B"] over a corpus that
only contains "A" leaves nothing after filtering, yet construction succeeds
and returns a selector — no `InvalidArmError` (nor any error) is raised at
construction time. -/
theorem c6_counterexample :
    ReviewSelector.init dataC6 (some ["B"]) =
      { data := [], restaurants := ["B"], reviewIndices := [], shuffled := [] } := by
  decide

/-- C6 witness: the amended statement at the concrete empty-after-filtering
selector — the first fetch for the requested arm fails with the
"no reviews available" IndexError. -/
theorem c6_witness :
    getRandomReview (ReviewSelector.init dataC6 (some ["B"])) "B" rngZ =
      .error (.indexError "No reviews available for restaurant B.") :=
  c6_theorem dataC6 ["B"] "B" rngZ (by decide) (by decide)

/-- C7 witness: draining arm "A" of the two-record selector returns both
records in some order and the third call raises the exhaustion IndexError. -/
theorem c7_witness :
    ∃ recs s' rng',
      drawN "A" 2 selC1 rngZ = .ok (recs, s', rng') ∧
      recs.Perm ([0, 1].filterMap (loc selC1.data)) ∧
      ∀ rng₂, getRandomReview s' "A" rng₂ =
        .error (.indexError "All reviews for restaurant A have been selected.") :=
  c7_theorem selC1 "A" [0, 1] rngZ (by decide) (by decide) (by decide) (by decide)
    (by decide)

/-- C8 witness: the idempotence theorem at a concrete synchronized selector:
the first call for `(0, "A")` caches a record, and an immediate second call
(empty step sequence) returns the identical record with the state unchanged. -/
theorem c8_witness :
    ∃ r s₁ rng₁,
      getSyncReview syC8 "A" (some 0) rngZ = .ok (r, s₁, rng₁) ∧
      getSyncReview s₁ "A" (some 0) rngZ = .ok (r, s₁, rngZ) := by
  refine ⟨_, _, _, rfl, ?_⟩
  exact c8_theorem syC8 "A" (some 0) rngZ _ _ _ rfl _ Relation.ReflTransGen.refl
    (some 0) rfl rngZ

/-- C9 witness: the quantify-failure fallback at a concrete record and a
quantifier that always raises the transport RuntimeError. -/
theorem c9_witness :
    simFeedback (.rc ⟨["A"]⟩) rwC9.review rwC9.rating qFail = .ok (.score rwC9.rating) ∧
    simProcess (.rc ⟨["A"]⟩) "A" rwC9 qFail clGood 3 =
      .ok (⟨3, "A", rwC9.rating⟩, .rc ⟨["A"]⟩) :=
  c9_theorem ⟨["A"]⟩ "A" rwC9 qFail clGood 3 "Failed to get a valid response"
    (Or.inl rfl)

/-- C10 witness: the empty-review-text behaviour at a concrete state — the
"Good" classifier and the failing classifier give the same selection, drawn
from the arms other than the last choice. -/
theorem c10_witness :
    FW.select fwC10 clGood rngZ = FW.selectRandom fwC10 rngZ ∧
    FW.select fwC10 clGood rngZ = FW.select fwC10 clErr rngZ ∧
    ∀ opts, opts = fwC10.restaurants.filter (fun r => decide (some r ≠ fwC10.lastChoice)) →
      opts ≠ [] →
      ∃ a rng₁, FW.select fwC10 clGood rngZ = .ok (a, rng₁) ∧ a ∈ opts ∧
        opts.get? (rngZ.peek % opts.length) = some a :=
  c10_theorem fwC10 clGood clErr rngZ rfl
